import Mathlib

/-!
Verification of the discord-exporter-analyzer core against its specification.

This file gives a shallow embedding, over `List Char` strings, of:
  * `src/analysis/parse_and_clean.py` — the line-oriented parser
    (`parse_and_clean_discord_txt`), its two timestamp regexes
    (`MESSAGE_REGEX_FULL`, `MESSAGE_REGEX_SHORT`), and the noise filter
    (`is_system_message`, `is_bot_command`);
  * the period segmentation, payload sampling, JSON response validation,
    model-rotation client and per-period loop of `src/analysis/ai_insights.py`
    (`get_quarterly_insights`, `summarize_text`).

Python `str` values are modelled as `List Char`; `datetime` values as explicit
record types validated the way `strptime` validates them; pandas DataFrames as
lists of records; random sampling as an explicitly passed sample; model-call
outcomes as an explicit outcome stream; raised exceptions as `Except.error`.
-/

/-! ## Character and string utilities (Python `str` semantics on `List Char`) -/

/-- Python whitespace for `str.strip` and the regex class backslash-s
(ASCII fragment: space, tab, newline, carriage return, vertical tab, form feed). -/
def pySpace (c : Char) : Bool :=
  c = ' ' || c = '\t' || c = '\n' || c = '\r' || c = Char.ofNat 11 || c = Char.ofNat 12

/-- Python `str.strip()`: drop leading and trailing whitespace. -/
def pyStrip (s : List Char) : List Char :=
  ((s.dropWhile pySpace).reverse.dropWhile pySpace).reverse

/-- Python `needle in hay` substring test. -/
def containsSub (needle hay : List Char) : Bool :=
  (List.range (hay.length + 1)).any (fun i => needle.isPrefixOf (hay.drop i))

/-- Python `s.replace(pat, "")`: delete every occurrence of `pat`,
left to right, non-overlapping.  (Guarded on `pat` nonempty; the source
only calls it with nonempty literal patterns.) -/
def pyReplaceDelAux (pat : List Char) : Nat → List Char → List Char
  | _, [] => []
  | 0, s => s
  | fuel + 1, c :: rest =>
    if pat ≠ [] ∧ pat.isPrefixOf (c :: rest) then
      pyReplaceDelAux pat fuel ((c :: rest).drop pat.length)
    else
      c :: pyReplaceDelAux pat fuel rest

def pyReplaceDel (pat s : List Char) : List Char :=
  pyReplaceDelAux pat s.length s

/-! ## Dates and times (`datetime.strptime` model) -/

/-- A calendar date, as produced by `datetime.date`. -/
structure Date where
  year : Nat
  month : Nat
  day : Nat
deriving DecidableEq, Repr

/-- A timestamp, as produced by `datetime.strptime(_, "%d/%m/%Y %H:%M")`. -/
structure DateTime where
  date : Date
  hour : Nat
  minute : Nat
deriving DecidableEq, Repr

def isLeap (y : Nat) : Bool :=
  (y % 4 == 0 && y % 100 != 0) || y % 400 == 0

def daysInMonth (y m : Nat) : Nat :=
  if m = 2 then (if isLeap y then 29 else 28)
  else if m = 4 || m = 6 || m = 9 || m = 11 then 30
  else 31

/-- `datetime.strptime(ts_str, "%d/%m/%Y %H:%M")` on already-captured digit
groups: succeeds exactly on valid calendar dates and clock times
(Python years run 1..9999; four digits bound the year above). -/
def strptimeFull (d m y h mi : Nat) : Option DateTime :=
  if 1 ≤ y ∧ 1 ≤ m ∧ m ≤ 12 ∧ 1 ≤ d ∧ d ≤ daysInMonth y m ∧ h ≤ 23 ∧ mi ≤ 59 then
    some ⟨⟨y, m, d⟩, h, mi⟩
  else none

/-- `datetime.strptime(f"{last_full_date} {time_str}", "%Y-%m-%d %H:%M")`:
the date part is the ISO rendering of an already-valid date, so success
depends only on the captured time digits being a valid clock time. -/
def shortTs (lastDate : Option Date) (h mi : Nat) : Option DateTime :=
  match lastDate with
  | some d => if h ≤ 23 ∧ mi ≤ 59 then some ⟨d, h, mi⟩ else none
  | none => none

/-! ## The two message regexes

`MESSAGE_REGEX_FULL  = ^\[(\d{2}/\d{2}/\d{4} \d{2}:\d{2})]\s*(.+?):\s*(.*)$`
`MESSAGE_REGEX_SHORT = ^\[(\d{2}:\d{2})]\s*(.+?):\s*(.*)$`

The shared suffix `\s*(.+?):\s*(.*)$` is matched with Python backtracking
semantics: greedy whitespace run first, then the lazy author group ends at the
first colon at least one character in; on failure the whitespace run shortens.
After the colon the greedy whitespace run and the final greedy group are
deterministic.  Input lines contain no newline (they come from splitting the
file on newlines), so the dot matches every character. -/

/-- Split at the first colon: `s = pre ++ ':' :: post` with `pre` colon-free. -/
def splitAtColon : List Char → Option (List Char × List Char)
  | [] => none
  | ':' :: rest => some ([], rest)
  | c :: rest =>
    match splitAtColon rest with
    | some (a, b) => some (c :: a, b)
    | none => none

/-- The lazy group `(.+?):`: author is everything before the first colon
occurring at index at least 1. -/
def findColonGe1 (r : List Char) : Option (List Char × List Char) :=
  match r with
  | [] => none
  | c :: rest =>
    match splitAtColon rest with
    | some (a, b) => some (c :: a, b)
    | none => none

/-- Backtracking over the greedy `\s*`: try consuming `k` leading whitespace
characters, from the maximal run length down to zero. -/
def tryColonSplit : Nat → List Char → Option (List Char × List Char)
  | 0, s => findColonGe1 s
  | k + 1, s =>
    match findColonGe1 (s.drop (k + 1)) with
    | some (a, b) => some (a, b)
    | none => tryColonSplit k s

/-- `\s*(.+?):\s*(.*)$` applied to the text after the closing bracket:
returns the author and body captures. -/
def authorBody (s : List Char) : Option (List Char × List Char) :=
  match tryColonSplit ((s.takeWhile pySpace).length) s with
  | some (a, rest) => some (a, rest.dropWhile pySpace)
  | none => none

def digitVal (c : Char) : Nat := c.toNat - '0'.toNat

def dig2 (a b : Char) : Nat := 10 * digitVal a + digitVal b

def dig4 (a b c d : Char) : Nat := 100 * dig2 a b + dig2 c d

/-- `MESSAGE_REGEX_FULL.match(line)`: on success returns the captured
day, month, year, hour, minute digits and the author and body captures. -/
def matchFull : List Char → Option (Nat × Nat × Nat × Nat × Nat × List Char × List Char)
  | '[' :: d1 :: d2 :: '/' :: m1 :: m2 :: '/' :: y1 :: y2 :: y3 :: y4 :: ' '
      :: h1 :: h2 :: ':' :: n1 :: n2 :: ']' :: rest =>
    if d1.isDigit && d2.isDigit && m1.isDigit && m2.isDigit &&
       y1.isDigit && y2.isDigit && y3.isDigit && y4.isDigit &&
       h1.isDigit && h2.isDigit && n1.isDigit && n2.isDigit then
      match authorBody rest with
      | some (u, b) => some (dig2 d1 d2, dig2 m1 m2, dig4 y1 y2 y3 y4, dig2 h1 h2, dig2 n1 n2, u, b)
      | none => none
    else none
  | _ => none

/-- `MESSAGE_REGEX_SHORT.match(line)`: on success returns the captured
hour and minute digits and the author and body captures. -/
def matchShort : List Char → Option (Nat × Nat × List Char × List Char)
  | '[' :: h1 :: h2 :: ':' :: n1 :: n2 :: ']' :: rest =>
    if h1.isDigit && h2.isDigit && n1.isDigit && n2.isDigit then
      match authorBody rest with
      | some (u, b) => some (dig2 h1 h2, dig2 n1 n2, u, b)
      | none => none
    else none
  | _ => none

/-! ## The noise filter (`SYSTEM_PATTERNS`, `is_system_message`, `is_bot_command`) -/

def SYSTEM_VERBS : List (List Char) :=
  ["added".data, "removed".data, "changed".data, "pinned".data, "unpinned".data,
   "joined".data, "left".data, "started".data, "ended".data, "created".data,
   "deleted".data, "updated".data]

/-- The regex dot never matches a newline. -/
def noNl (l : List Char) : Bool := l.all (fun c => c ≠ '\n')

/-- Python `$` without MULTILINE: end of string, or just before a final newline. -/
def endAnchorStars (t : List Char) : Bool :=
  decide (t = ['*', '*']) || decide (t = ['*', '*', '\n'])

/-- Case-insensitive check that `r` starts with the verb `v` (ASCII folding,
matching `re.IGNORECASE` on the all-letter verb alternation). -/
def verbAt (r v : List Char) : Bool :=
  decide ((r.take v.length).map Char.toLower = v) && decide (v.length ≤ r.length)

/-- First system pattern:
`^\*\*.+ (added|removed|changed|pinned|unpinned|joined|left|started|ended|created|deleted|updated).+\*\*$`
(IGNORECASE).  A match is an existence of a decomposition, searched here over
explicit split positions. -/
def sysPat1 (s : List Char) : Bool :=
  match s with
  | '*' :: '*' :: rest =>
    (List.range (rest.length + 1)).any (fun i =>
      decide (1 ≤ i) && noNl (rest.take i) &&
      (match rest.drop i with
       | ' ' :: r2 =>
         SYSTEM_VERBS.any (fun v =>
           verbAt r2 v &&
           (let r3 := r2.drop v.length
            (List.range (r3.length + 1)).any (fun j =>
              decide (1 ≤ j) && noNl (r3.take j) && endAnchorStars (r3.drop j))))
       | _ => false))
  | _ => false

/-- Second system pattern: `^\*\*.+\*\*$` (generic bold system messages). -/
def sysPat2 (s : List Char) : Bool :=
  match s with
  | '*' :: '*' :: rest =>
    (List.range (rest.length + 1)).any (fun j =>
      decide (1 ≤ j) && noNl (rest.take j) && endAnchorStars (rest.drop j))
  | _ => false

/-- `is_system_message`: any of the `SYSTEM_PATTERNS` matches. -/
def is_system_message (m : List Char) : Bool := sysPat1 m || sysPat2 m

/-- `is_bot_command`: `message.strip().startswith(('!', '/'))`. -/
def is_bot_command (m : List Char) : Bool :=
  match pyStrip m with
  | c :: _ => c = '!' || c = '/'
  | [] => false

/-! ## The parser state machine (`parse_and_clean_discord_txt`) -/

/-- One row of the resulting DataFrame: columns timestamp, user, message. -/
structure Row where
  timestamp : Option DateTime
  user : List Char
  message : List Char
deriving DecidableEq, Repr

/-- Parser state: accumulated rows, the buffered in-progress message, and
`last_full_date`. -/
structure PState where
  rows : List Row
  buffer : Option Row
  lastFullDate : Option Date
deriving Repr

/-- Keep a flushed record iff it is neither a system message nor a bot command. -/
def keepRow (r : Row) : Bool :=
  !(is_system_message r.message) && !(is_bot_command r.message)

/-- Flush the buffered record: append it to the rows iff it passes the filter. -/
def flushBuffer (st : PState) : List Row :=
  match st.buffer with
  | some b => if keepRow b then st.rows ++ [b] else st.rows
  | none => st.rows

/-- Processing of one raw input line (the body of the `for` loop at
parse_and_clean.py lines 43-85). -/
def stepLine (st : PState) (raw : List Char) : PState :=
  let line := pyStrip raw
  if line = [] then st
  else
    match matchFull line with
    | some (d, m, y, hh, mm, u, msg) =>
      match strptimeFull d m y hh mm with
      | some dt => ⟨flushBuffer st, some ⟨some dt, u, msg⟩, some dt.date⟩
      | none => ⟨flushBuffer st, some ⟨none, u, msg⟩, st.lastFullDate⟩
    | none =>
      match matchShort line with
      | some (hh, mm, u, msg) =>
        ⟨flushBuffer st, some ⟨shortTs st.lastFullDate hh mm, u, msg⟩, st.lastFullDate⟩
      | none =>
        match st.buffer with
        | some b => ⟨st.rows, some ⟨b.timestamp, b.user, b.message ++ '\n' :: line⟩, st.lastFullDate⟩
        | none => st

def initPState : PState := ⟨[], none, none⟩

def parseLines (lines : List (List Char)) : PState :=
  lines.foldl stepLine initPState

/-- `parse_and_clean_discord_txt` on an already-read list of lines:
run the loop, then flush the last buffered message. -/
def parse_and_clean (lines : List (List Char)) : List Row :=
  flushBuffer (parseLines lines)

/-- Split a file's text into its lines (the `'\n'`-free segments
`f.readlines()` produces, before each is stripped). -/
def splitOnNl : List Char → List (List Char)
  | [] => []
  | c :: rest =>
    match splitOnNl rest with
    | [] => if c = '\n' then [[], []] else [[c]]
    | l :: ls => if c = '\n' then [] :: l :: ls else (c :: l) :: ls

/-- `parse_and_clean_discord_txt` on the whole file text. -/
def parse_and_clean_discord_txt (text : List Char) : List Row :=
  parse_and_clean (splitOnNl text)

/-- The date the parser would hold in `last_full_date` after a list of lines:
folded over the lines, updated only when a line full-matches and its
timestamp text parses. -/
def fullDateStep (acc : Option Date) (raw : List Char) : Option Date :=
  match matchFull (pyStrip raw) with
  | some (d, m, y, hh, mm, _, _) =>
    match strptimeFull d m y hh mm with
    | some dt => some dt.date
    | none => acc
  | none => acc

def lastFullDateOf (lines : List (List Char)) : Option Date :=
  lines.foldl fullDateStep none

/-! ## Lemmas about the parser -/

theorem matchShort_imp_matchFull_none (s : List Char) (x : Nat × Nat × List Char × List Char)
    (hs : matchShort s = some x) : matchFull s = none := by
  unfold matchShort at hs
  split at hs
  · rename_i h1 h2 n1 n2 rest
    rfl
  · exact absurd hs (by simp)

theorem stepLine_lastFullDate (st : PState) (raw : List Char) :
    (stepLine st raw).lastFullDate = fullDateStep st.lastFullDate raw := by
  unfold stepLine fullDateStep
  by_cases hl : pyStrip raw = []
  · rw [hl]
    simp [matchFull]
  · simp only [hl, if_neg hl, ite_false]
    rcases hf : matchFull (pyStrip raw) with _ | ⟨d, m, y, hh, mm, u, msg⟩
    · rcases hsrt : matchShort (pyStrip raw) with _ | ⟨hh, mm, u, msg⟩
      · rcases hb : st.buffer with _ | b <;> simp
      · simp
    · rcases hst : strptimeFull d m y hh mm with _ | dt <;> simp [hst]

theorem foldl_lastFullDate (lines : List (List Char)) :
    ∀ st : PState, (List.foldl stepLine st lines).lastFullDate
      = List.foldl fullDateStep st.lastFullDate lines := by
  induction lines with
  | nil => intro st; rfl
  | cons ℓ rest ih =>
    intro st
    simp only [List.foldl_cons]
    rw [ih (stepLine st ℓ), stepLine_lastFullDate]

theorem parseLines_lastFullDate (lines : List (List Char)) :
    (parseLines lines).lastFullDate = lastFullDateOf lines :=
  foldl_lastFullDate lines initPState

/-- C1: For every parsed input, a short-timestamp line occurring before any
full-timestamp line produces a record with a null timestamp, and a
short-timestamp line occurring after one or more full-timestamp lines produces
a record whose timestamp date equals the date of the most recent successfully
parsed full-timestamp line (the parser's `last_full_date`, updated only on
successful full-timestamp parses): processing the short line `ℓ` after the
lines `pre` buffers a record with the captured author and body whose
timestamp is null when no earlier full-timestamp line parsed, and otherwise
(for a valid captured clock time) combines `last_full_date` with the captured
time of day; moreover the parser's `last_full_date` after `pre` is exactly
the fold that updates only on successful full-timestamp parses. -/
theorem c1_short_line_timestamp (pre : List (List Char)) (ℓ : List Char)
    (hh mm : Nat) (u msg : List Char)
    (hs : matchShort (pyStrip ℓ) = some (hh, mm, u, msg)) :
    (parseLines pre).lastFullDate = lastFullDateOf pre ∧
    (stepLine (parseLines pre) ℓ).buffer
      = some ⟨shortTs (lastFullDateOf pre) hh mm, u, msg⟩ ∧
    (lastFullDateOf pre = none → shortTs (lastFullDateOf pre) hh mm = none) ∧
    (∀ d, lastFullDateOf pre = some d → hh ≤ 23 → mm ≤ 59 →
      shortTs (lastFullDateOf pre) hh mm = some ⟨d, hh, mm⟩) := by
  have hlast : (parseLines pre).lastFullDate = lastFullDateOf pre :=
    parseLines_lastFullDate pre
  have hne : pyStrip ℓ ≠ [] := by
    intro hnil
    rw [hnil] at hs
    exact absurd hs (by simp [matchShort])
  have hf : matchFull (pyStrip ℓ) = none := matchShort_imp_matchFull_none _ _ hs
  refine ⟨hlast, ?_, ?_, ?_⟩
  · unfold stepLine
    simp only [hne, if_neg hne, ite_false, hf, hs, hlast]
  · intro h0
    rw [h0]
    rfl
  · intro d hd h23 h59
    rw [hd]
    simp [shortTs, h23, h59]

/-- Witness for C1: a concrete full-timestamp line followed by a concrete
short-timestamp line; the short line's record carries the full line's date. -/
theorem c1_short_line_timestamp_witness :
    (stepLine (parseLines ["[01/01/2025 10:00] Alice: hi".data]) "[10:10] Bob: yo".data).buffer
      = some ⟨some ⟨⟨2025, 1, 1⟩, 10, 10⟩, "Bob".data, "yo".data⟩ := by
  have h := c1_short_line_timestamp ["[01/01/2025 10:00] Alice: hi".data]
    "[10:10] Bob: yo".data 10 10 "Bob".data "yo".data (by decide)
  have hd : lastFullDateOf ["[01/01/2025 10:00] Alice: hi".data] = some (Date.mk 2025 1 1) := by
    decide
  rw [h.2.1, h.2.2.2 (Date.mk 2025 1 1) hd (by decide) (by decide)]

theorem flushBuffer_keep (st : PState) (hrows : ∀ r ∈ st.rows, keepRow r = true) :
    ∀ r ∈ flushBuffer st, keepRow r = true := by
  unfold flushBuffer
  rcases st.buffer with _ | b
  · exact hrows
  · show ∀ r ∈ (if keepRow b = true then st.rows ++ [b] else st.rows), keepRow r = true
    by_cases hk : keepRow b = true
    · rw [if_pos hk]
      intro r hr
      rcases List.mem_append.mp hr with hr | hr
      · exact hrows r hr
      · rw [List.mem_singleton.mp hr]; exact hk
    · rw [if_neg hk]
      exact hrows

theorem stepLine_rows_shape (st : PState) (raw : List Char) :
    (stepLine st raw).rows = st.rows ∨ (stepLine st raw).rows = flushBuffer st := by
  unfold stepLine
  simp only []
  split
  · left; rfl
  · split
    · split
      · right; rfl
      · right; rfl
    · split
      · right; rfl
      · split
        · left; rfl
        · left; rfl

theorem stepLine_keep (st : PState) (raw : List Char)
    (hrows : ∀ r ∈ st.rows, keepRow r = true) :
    ∀ r ∈ (stepLine st raw).rows, keepRow r = true := by
  rcases stepLine_rows_shape st raw with hsh | hsh <;> rw [hsh]
  · exact hrows
  · exact flushBuffer_keep st hrows

theorem foldl_keep (lines : List (List Char)) :
    ∀ st : PState, (∀ r ∈ st.rows, keepRow r = true) →
      ∀ r ∈ (List.foldl stepLine st lines).rows, keepRow r = true := by
  induction lines with
  | nil => intro st h; exact h
  | cons ℓ rest ih =>
    intro st h
    exact ih (stepLine st ℓ) (stepLine_keep st ℓ h)

theorem parse_and_clean_keep (lines : List (List Char)) :
    ∀ r ∈ parse_and_clean lines, keepRow r = true := by
  unfold parse_and_clean parseLines
  exact flushBuffer_keep _ (foldl_keep lines initPState (by intro r hr; cases hr))

theorem dropWhile_append_single (c : Char) (l : List Char) (hc : pySpace c = false) :
    List.dropWhile pySpace (l ++ [c]) = List.dropWhile pySpace l ++ [c] := by
  induction l with
  | nil => simp [List.dropWhile, hc]
  | cons a l ih =>
    by_cases ha : pySpace a
    · simp [List.dropWhile, ha, ih]
    · simp [List.dropWhile, ha]

theorem pyStrip_cons_head (c : Char) (xs : List Char) (hc : pySpace c = false) :
    ∃ t, pyStrip (c :: xs) = c :: t := by
  unfold pyStrip
  rw [List.dropWhile_cons, if_neg (by simp [hc])]
  have : (c :: xs).reverse = xs.reverse ++ [c] := by simp
  rw [this, dropWhile_append_single c xs.reverse hc]
  exact ⟨(List.dropWhile pySpace xs.reverse).reverse, by simp⟩

theorem bot_command_of_head (c : Char) (xs : List Char)
    (hc : pySpace c = false) (hk : c = '!' ∨ c = '/') :
    is_bot_command (c :: xs) = true := by
  obtain ⟨t, ht⟩ := pyStrip_cons_head c xs hc
  unfold is_bot_command
  rw [ht]
  rcases hk with hk | hk <;> simp [hk]

/-- C2: no record whose flush-time body begins with an exclamation mark or a
slash, or whose body matches the asterisk-wrapped system-action pattern, ever
appears in the Record Store returned by the parser: every stored record
passes both filters (filtering happens at flush time and filtered records are
never stored, so the store contains only records with
`is_system_message = false` and `is_bot_command = false`). -/
theorem c2_noise_never_stored (lines : List (List Char)) (r : Row)
    (hr : r ∈ parse_and_clean lines) :
    (∀ rest, r.message ≠ '!' :: rest) ∧
    (∀ rest, r.message ≠ '/' :: rest) ∧
    sysPat1 r.message = false ∧
    is_system_message r.message = false ∧
    is_bot_command r.message = false := by
  have hk : keepRow r = true := parse_and_clean_keep lines r hr
  unfold keepRow at hk
  rw [Bool.and_eq_true, Bool.not_eq_true', Bool.not_eq_true'] at hk
  obtain ⟨hsys, hbot⟩ := hk
  refine ⟨?_, ?_, ?_, hsys, hbot⟩
  · intro rest hmsg
    have : is_bot_command r.message = true := by
      rw [hmsg]; exact bot_command_of_head '!' rest (by decide) (Or.inl rfl)
    rw [this] at hbot; cases hbot
  · intro rest hmsg
    have : is_bot_command r.message = true := by
      rw [hmsg]; exact bot_command_of_head '/' rest (by decide) (Or.inr rfl)
    rw [this] at hbot; cases hbot
  · unfold is_system_message at hsys
    exact (Bool.or_eq_false_iff.mp hsys).1

/-- Witness for C2: a concrete input whose noise lines (a bot command and a
bold system message) are dropped while the real message is stored and passes
the filters. -/
theorem c2_noise_never_stored_witness :
    ("Real message".data ∈ (parse_and_clean_discord_txt
        "[01/01/2025 10:00] Alice: !bot\n[01/01/2025 10:01] System: **User joined**\n[01/01/2025 10:02] Bob: Real message".data).map Row.message) ∧
    is_system_message "Real message".data = false ∧
    is_bot_command "Real message".data = false := by
  have hparse : parse_and_clean_discord_txt
      "[01/01/2025 10:00] Alice: !bot\n[01/01/2025 10:01] System: **User joined**\n[01/01/2025 10:02] Bob: Real message".data
      = [⟨some ⟨⟨2025, 1, 1⟩, 10, 2⟩, "Bob".data, "Real message".data⟩] := by decide
  have hmem : (⟨some ⟨⟨2025, 1, 1⟩, 10, 2⟩, "Bob".data, "Real message".data⟩ : Row)
      ∈ parse_and_clean_discord_txt
        "[01/01/2025 10:00] Alice: !bot\n[01/01/2025 10:01] System: **User joined**\n[01/01/2025 10:02] Bob: Real message".data := by
    rw [hparse]; exact List.mem_singleton.mpr rfl
  have h := c2_noise_never_stored _ _ (by
    unfold parse_and_clean_discord_txt at hmem
    exact hmem)
  refine ⟨?_, h.2.2.2.1, h.2.2.2.2⟩
  rw [hparse]
  simp

/-! ## Period segmentation (`get_quarterly_insights`, ai_insights.py lines 238-268)

With no year filter, no `target_quarter` and `force_single_period` false, the
code tags each row with `(timestamp.year, timestamp.quarter)`, groups by that
pair — pandas `groupby` drops rows whose key is NaN, i.e. rows whose timestamp
is null — and iterates the groups sorted ascending by (year, quarter).  Each
group keeps the Store's row order (pandas `groupby` preserves it). -/

/-- pandas `dt.quarter` for months 1..12. -/
def quarterOf (m : Nat) : Nat := (m + 2) / 3

/-- The grouping key of a row: `(year, quarter)` of its timestamp,
or none when the timestamp is null (pandas NaT, dropped by `groupby`). -/
def rowKey (r : Row) : Option (Nat × Nat) :=
  r.timestamp.map (fun dt => (dt.date.year, quarterOf dt.date.month))

/-- Ascending lexicographic order on (year, quarter), as used by
`sorted(groups, key=lambda x: (x[0][0], x[0][1]))`. -/
def keyLeP : Nat × Nat → Nat × Nat → Prop :=
  fun a b => a.1 < b.1 ∨ (a.1 = b.1 ∧ a.2 ≤ b.2)

def keyLtP : Nat × Nat → Nat × Nat → Prop :=
  fun a b => a.1 < b.1 ∨ (a.1 = b.1 ∧ a.2 < b.2)

instance : DecidableRel keyLeP := fun a b => by unfold keyLeP; infer_instance

instance : IsTotal (Nat × Nat) keyLeP := ⟨by intro a b; unfold keyLeP; omega⟩

instance : IsTrans (Nat × Nat) keyLeP := ⟨by intro a b c; unfold keyLeP; omega⟩

/-- The distinct group keys present in the Store, in ascending order. -/
def sortedKeys (rows : List Row) : List (Nat × Nat) :=
  List.insertionSort keyLeP ((rows.filterMap rowKey).dedup)

/-- The `sorted_groups` the per-quarter loop iterates over: one group per key
present in the Store, each carrying the Store's rows with that key in Store
order. -/
def segmentQuarters (rows : List Row) : List ((Nat × Nat) × List Row) :=
  (sortedKeys rows).map (fun k => (k, rows.filter (fun r => decide (rowKey r = some k))))

theorem mem_sortedKeys (rows : List Row) (k : Nat × Nat) :
    k ∈ sortedKeys rows ↔ ∃ r ∈ rows, rowKey r = some k := by
  unfold sortedKeys
  rw [List.mem_insertionSort, List.mem_dedup, List.mem_filterMap]

theorem nodup_sortedKeys (rows : List Row) : (sortedKeys rows).Nodup := by
  unfold sortedKeys
  exact (List.perm_insertionSort keyLeP _).nodup_iff.mpr (List.nodup_dedup _)

theorem sorted_sortedKeys (rows : List Row) : List.Sorted keyLeP (sortedKeys rows) :=
  List.sorted_insertionSort keyLeP _

theorem countP_eq_one_of_nodup_mem {α : Type} [DecidableEq α] {l : List α} {k : α}
    (hn : l.Nodup) (hm : k ∈ l) : l.countP (fun x => decide (x = k)) = 1 := by
  induction l with
  | nil => cases hm
  | cons a l ih =>
    rw [List.countP_cons]
    rcases List.mem_cons.mp hm with he | hm2
    · subst he
      have hnotin : k ∉ l := (List.nodup_cons.mp hn).1
      have hz : l.countP (fun x => decide (x = k)) = 0 := by
        rw [List.countP_eq_zero]
        intro x hx
        simp only [decide_eq_true_eq]
        intro hxa
        exact hnotin (hxa ▸ hx)
      simp [hz]
    · have hne : a ≠ k := by
        intro he
        exact (List.nodup_cons.mp hn).1 (he ▸ hm2)
      rw [ih (List.nodup_cons.mp hn).2 hm2]
      simp [hne]

/-- C3 (counterexample to the claim as stated): a Record Store holding a
record with a null timestamp is not partitioned — that record appears in no
emitted period at all (pandas `groupby` drops NaT keys), so it is not the
case that every record of every Store appears in exactly one emitted period. -/
theorem c3_partition_counterexample :
    ¬ (∀ (rows : List Row), ∀ r ∈ rows,
        (segmentQuarters rows).countP (fun p => decide (r ∈ p.2)) = 1) := by
  intro h
  have := h [⟨none, "A".data, "hi".data⟩] ⟨none, "A".data, "hi".data⟩ (List.mem_singleton.mpr rfl)
  rw [show segmentQuarters [⟨none, "A".data, "hi".data⟩] = [] from rfl] at this
  exact absurd this (by decide)

/-- C3 (amended): quarterly segmentation with no year or quarter filter is a
partition of the records that carry a timestamp: every record with a non-null
timestamp appears in exactly one emitted period, records with a null
timestamp appear in none, distinct periods never share a record, empty
periods are not emitted, and the periods are sorted strictly ascending by
(year, quarter). -/
theorem c3_partition_amended (rows : List Row) :
    (∀ r ∈ rows, ∀ k, rowKey r = some k →
        (segmentQuarters rows).countP (fun p => decide (r ∈ p.2)) = 1) ∧
    (∀ r ∈ rows, rowKey r = none → ∀ p ∈ segmentQuarters rows, r ∉ p.2) ∧
    List.Pairwise (fun p q => ∀ r, r ∈ p.2 → r ∉ q.2) (segmentQuarters rows) ∧
    (∀ p ∈ segmentQuarters rows, p.2 ≠ []) ∧
    List.Pairwise (fun p q => keyLtP p.1 q.1) (segmentQuarters rows) := by
  refine ⟨?_, ?_, ?_, ?_, ?_⟩
  · intro r hr k hk
    unfold segmentQuarters
    rw [List.countP_map]
    have hcg : (sortedKeys rows).countP
        ((fun p : (Nat × Nat) × List Row => decide (r ∈ p.2)) ∘
          (fun k2 => (k2, rows.filter (fun r2 => decide (rowKey r2 = some k2)))))
        = (sortedKeys rows).countP (fun x => decide (x = k)) := by
      apply List.countP_congr
      intro k2 _
      simp only [Function.comp_apply, List.mem_filter, decide_eq_true_eq, hr, true_and,
        decide_eq_decide]
      constructor
      · intro hin
        rw [hk] at hin
        exact (Option.some_inj.mp hin).symm
      · intro he
        subst he
        exact hk
    rw [hcg]
    exact countP_eq_one_of_nodup_mem (nodup_sortedKeys rows)
      ((mem_sortedKeys rows k).mpr ⟨r, hr, hk⟩)
  · intro r _ hk p hp hrp
    unfold segmentQuarters at hp
    obtain ⟨k2, _, rfl⟩ := List.mem_map.mp hp
    have := (List.mem_filter.mp hrp).2
    rw [hk] at this
    exact absurd (of_decide_eq_true this) (by simp)
  · unfold segmentQuarters
    have hnd : List.Pairwise (fun a b => a ≠ b) (sortedKeys rows) := nodup_sortedKeys rows
    refine List.Pairwise.map _ ?_ hnd
    intro k1 k2 hne r hr1 hr2
    have h1 := of_decide_eq_true (List.mem_filter.mp hr1).2
    have h2 := of_decide_eq_true (List.mem_filter.mp hr2).2
    rw [h1] at h2
    exact hne (Option.some_inj.mp h2)
  · intro p hp
    unfold segmentQuarters at hp
    obtain ⟨k2, hk2, rfl⟩ := List.mem_map.mp hp
    obtain ⟨r, hr, hrk⟩ := (mem_sortedKeys rows k2).mp hk2
    exact List.ne_nil_of_mem (List.mem_filter.mpr ⟨hr, decide_eq_true hrk⟩)
  · unfold segmentQuarters
    have hle : List.Pairwise keyLeP (sortedKeys rows) := sorted_sortedKeys rows
    have hne : List.Pairwise (fun a b : Nat × Nat => a ≠ b) (sortedKeys rows) :=
      nodup_sortedKeys rows
    have hlt : List.Pairwise keyLtP (sortedKeys rows) := by
      refine (hle.and hne).imp ?_
      intro a b hab
      obtain ⟨hab1, hab2⟩ := hab
      unfold keyLeP at hab1
      unfold keyLtP
      rcases hab1 with hlt1 | ⟨heq, hle2⟩
      · exact Or.inl hlt1
      · refine Or.inr ⟨heq, lt_of_le_of_ne hle2 ?_⟩
        intro he2
        exact hab2 (Prod.ext heq he2)
    exact List.Pairwise.map _ (fun a b hab => hab) hlt

/-- Witness for C3 (amended): a two-quarter Store; each record lies in exactly
one emitted period. -/
theorem c3_partition_amended_witness :
    (segmentQuarters
        [⟨some ⟨⟨2024, 2, 1⟩, 9, 0⟩, "A".data, "x".data⟩,
         ⟨some ⟨⟨2024, 7, 1⟩, 9, 0⟩, "B".data, "y".data⟩]).countP
      (fun p => decide ((⟨some ⟨⟨2024, 2, 1⟩, 9, 0⟩, "A".data, "x".data⟩ : Row) ∈ p.2)) = 1 := by
  have h := (c3_partition_amended
      [⟨some ⟨⟨2024, 2, 1⟩, 9, 0⟩, "A".data, "x".data⟩,
       ⟨some ⟨⟨2024, 7, 1⟩, 9, 0⟩, "B".data, "y".data⟩]).1
  exact h (⟨some ⟨⟨2024, 2, 1⟩, 9, 0⟩, "A".data, "x".data⟩ : Row) (by simp)
    ((2024 : Nat), (1 : Nat)) (by decide)

/-! ## Payload sampling (`get_quarterly_insights`, ai_insights.py lines 272-290)

`limit_msgs = 800`; a period above the limit is replaced by
`quarter_data.sample(limit_msgs).sort_values('timestamp')` — a uniform random
sample of exactly 800 rows, re-sorted chronologically — while a period at or
below the limit passes through unchanged.  The random sample is modelled as
an explicitly passed subpermutation of the period. -/

/-- Lexicographic comparison of equal-length digit-field lists. -/
def natListLe : List Nat → List Nat → Bool
  | [], _ => true
  | _ :: _, [] => false
  | a :: as, b :: bs => if a < b then true else if b < a then false else natListLe as bs

def dtKey (dt : DateTime) : List Nat :=
  [dt.date.year, dt.date.month, dt.date.day, dt.hour, dt.minute]

/-- `sort_values('timestamp')` comparison: chronological on timestamps,
null timestamps (NaT) last. -/
def tsLe (a b : Row) : Bool :=
  match a.timestamp, b.timestamp with
  | some x, some y => natListLe (dtKey x) (dtKey y)
  | some _, none => true
  | none, some _ => false
  | none, none => true

def rowLeP : Row → Row → Prop := fun a b => tsLe a b = true

instance : DecidableRel rowLeP := fun a b => by unfold rowLeP; infer_instance

theorem natListLe_total (a b : List Nat) : natListLe a b = true ∨ natListLe b a = true := by
  induction a generalizing b with
  | nil => left; rfl
  | cons x as ih =>
    cases b with
    | nil => right; rfl
    | cons y bs =>
      unfold natListLe
      rcases Nat.lt_trichotomy x y with hlt | heq | hgt
      · left; simp [hlt]
      · subst heq
        rcases ih bs with hl | hr
        · left; simp [hl]
        · right; simp [hr]
      · right; simp [hgt, Nat.lt_asymm hgt]

theorem natListLe_trans (a b c : List Nat) (hab : natListLe a b = true)
    (hbc : natListLe b c = true) : natListLe a c = true := by
  induction a generalizing b c with
  | nil => rfl
  | cons x as ih =>
    cases b with
    | nil => exact absurd hab (by simp [natListLe])
    | cons y bs =>
      cases c with
      | nil => exact absurd hbc (by simp [natListLe])
      | cons z cs =>
        unfold natListLe at hab hbc ⊢
        by_cases hxy : x < y
        · by_cases hyz : y < z
          · simp [Nat.lt_trans hxy hyz]
          · by_cases hzy : z < y
            · simp only [if_pos hyz, if_neg hyz] at hbc
              rw [if_pos hzy] at hbc
              exact absurd hbc (by simp)
            · have : y = z := Nat.le_antisymm (Nat.le_of_not_lt hzy) (Nat.le_of_not_lt hyz)
              subst this
              simp [hxy]
        · by_cases hyx : y < x
          · rw [if_neg hxy, if_pos hyx] at hab
            exact absurd hab (by simp)
          · have hxyeq : x = y := Nat.le_antisymm (Nat.le_of_not_lt hyx) (Nat.le_of_not_lt hxy)
            subst hxyeq
            rw [if_neg hxy, if_neg hxy] at hab
            by_cases hyz : x < z
            · simp [hyz]
            · by_cases hzy : z < x
              · rw [if_neg hyz, if_pos hzy] at hbc
                exact absurd hbc (by simp)
              · have hxz : x = z := Nat.le_antisymm (Nat.le_of_not_lt hzy) (Nat.le_of_not_lt hyz)
                subst hxz
                rw [if_neg hyz, if_neg hyz] at hbc
                rw [if_neg hyz, if_neg hyz]
                exact ih bs cs hab hbc

instance : IsTotal Row rowLeP := by
  refine ⟨fun a b => ?_⟩
  unfold rowLeP tsLe
  rcases a.timestamp with _ | x <;> rcases b.timestamp with _ | y <;> simp
  exact natListLe_total (dtKey x) (dtKey y)

instance : IsTrans Row rowLeP := by
  refine ⟨fun a b c hab hbc => ?_⟩
  unfold rowLeP tsLe at hab hbc ⊢
  rcases ha : a.timestamp with _ | x <;> rcases hb : b.timestamp with _ | y <;>
    rcases hc : c.timestamp with _ | z <;> simp_all
  exact natListLe_trans _ _ _ hab hbc

/-- `sort_values('timestamp')`: a stable chronological sort. -/
def sortRowsTs (l : List Row) : List Row := List.insertionSort rowLeP l

/-- The fixed payload cap (`limit_msgs = 800`). -/
def limit_msgs : Nat := 800

/-- The `msgs_to_process` selection: sample-and-sort above the cap, identity
at or below it.  `sampled` stands for the value of
`quarter_data.sample(limit_msgs)`. -/
def sampleStep (quarterData sampled : List Row) : List Row :=
  if limit_msgs < quarterData.length then sortRowsTs sampled else quarterData

/-- C4: for every period, if its record count exceeds the fixed limit of 800
the sampler uses a random sample of exactly 800 of its records re-sorted
chronologically — so the sequence fed to serialization is monotonically
non-decreasing in timestamp — and a period at or below 800 records passes
through unchanged (hence in its existing order). -/
theorem c4_sampler_cap_and_order (quarterData sampled : List Row)
    (hlen : sampled.length = limit_msgs)
    (hsub : sampled.Subperm quarterData) :
    (limit_msgs < quarterData.length →
       sampleStep quarterData sampled = sortRowsTs sampled ∧
       (sampleStep quarterData sampled).length = 800 ∧
       List.Sorted rowLeP (sampleStep quarterData sampled) ∧
       (sampleStep quarterData sampled).Subperm quarterData) ∧
    (quarterData.length ≤ limit_msgs →
       sampleStep quarterData sampled = quarterData) := by
  constructor
  · intro hgt
    have hstep : sampleStep quarterData sampled = sortRowsTs sampled := by
      unfold sampleStep
      rw [if_pos hgt]
    refine ⟨hstep, ?_, ?_, ?_⟩
    · rw [hstep]
      unfold sortRowsTs
      rw [(List.perm_insertionSort rowLeP sampled).length_eq, hlen]
      rfl
    · rw [hstep]
      exact List.sorted_insertionSort rowLeP sampled
    · rw [hstep]
      exact ((List.perm_insertionSort rowLeP sampled).subperm).trans hsub
  · intro hle
    unfold sampleStep
    rw [if_neg (by omega)]

/-- Witness for C4: an 801-record period with an 800-record sample. -/
theorem c4_sampler_cap_and_order_witness :
    (sampleStep (List.replicate 801 (⟨none, "A".data, "x".data⟩ : Row))
        (List.replicate 800 (⟨none, "A".data, "x".data⟩ : Row))).length = 800 := by
  have hsub : (List.replicate 800 (⟨none, "A".data, "x".data⟩ : Row)).Subperm
      (List.replicate 801 (⟨none, "A".data, "x".data⟩ : Row)) := by
    refine List.Sublist.subperm ?_
    rw [show (801 : Nat) = 800 + 1 from rfl, List.replicate_succ]
    exact List.sublist_cons_self _ _
  have h := c4_sampler_cap_and_order
      (List.replicate 801 (⟨none, "A".data, "x".data⟩ : Row))
      (List.replicate 800 (⟨none, "A".data, "x".data⟩ : Row))
      (by simp only [List.length_replicate]; rfl) hsub
  exact (h.1 (by simp only [List.length_replicate, limit_msgs]; omega)).2.1

/-! ## JSON response validation (`get_quarterly_insights`, ai_insights.py lines 319-341)

The cleaning pipeline: delete the markdown fence markers, strip, extract the
substring matched by the DOTALL regex containing an opening brace, any
characters and a closing brace (leftmost match, greedy: from the first
opening brace to the last closing brace after it), `json.loads` it, and on a
decode error store the fixed default insight record.  `json.loads` is
modelled by a fuel-indexed recursive-descent parser of the JSON grammar
accepted by the Python standard library (numbers kept as lexemes; the fuel,
three units per input character plus a constant, never runs out on inputs
the grammar accepts). -/

inductive Json where
  | obj (fields : List (List Char × Json))
  | arr (items : List Json)
  | str (s : List Char)
  | num (lexeme : List Char)
  | bool (b : Bool)
  | null

def jsonWs (c : Char) : Bool := c = ' ' || c = '\t' || c = '\n' || c = '\r'

def hexVal (c : Char) : Option Nat :=
  if c.isDigit then some (c.toNat - '0'.toNat)
  else if 'a' ≤ c ∧ c ≤ 'f' then some (c.toNat - 'a'.toNat + 10)
  else if 'A' ≤ c ∧ c ≤ 'F' then some (c.toNat - 'A'.toNat + 10)
  else none

def escChar (c : Char) : Option Char :=
  if c = '"' then some '"'
  else if c = '\\' then some '\\'
  else if c = '/' then some '/'
  else if c = 'b' then some (Char.ofNat 8)
  else if c = 'f' then some (Char.ofNat 12)
  else if c = 'n' then some '\n'
  else if c = 'r' then some '\r'
  else if c = 't' then some '\t'
  else none

/-- JSON string body after the opening quote: returns the decoded content and
the rest after the closing quote.  Control characters are rejected (strict
mode), escapes and four-digit unicode escapes are decoded. -/
def parseStrBody : Nat → List Char → Option (List Char × List Char)
  | 0, _ => none
  | fuel + 1, s =>
    match s with
    | [] => none
    | '"' :: rest => some ([], rest)
    | '\\' :: 'u' :: h1 :: h2 :: h3 :: h4 :: rest =>
      match hexVal h1, hexVal h2, hexVal h3, hexVal h4 with
      | some a, some b, some c, some d =>
        match parseStrBody fuel rest with
        | some (acc, rem) => some (Char.ofNat (((a * 16 + b) * 16 + c) * 16 + d) :: acc, rem)
        | none => none
      | _, _, _, _ => none
    | '\\' :: e :: rest =>
      match escChar e with
      | some c =>
        match parseStrBody fuel rest with
        | some (acc, rem) => some (c :: acc, rem)
        | none => none
      | none => none
    | c :: rest =>
      if c.toNat < 32 then none
      else
        match parseStrBody fuel rest with
        | some (acc, rem) => some (c :: acc, rem)
        | none => none

/-- One or more decimal digits. -/
def parseDigits (s : List Char) : Option (List Char × List Char) :=
  match s.takeWhile Char.isDigit with
  | [] => none
  | ds => some (ds, s.drop ds.length)

/-- Exponent part of a number lexeme. -/
def parseExp (pre e s : List Char) : Option (List Char × List Char) :=
  let (sgn, s1) := match s with
    | '+' :: rest => ((['+'] : List Char), rest)
    | '-' :: rest => ((['-'] : List Char), rest)
    | _ => (([] : List Char), s)
  match parseDigits s1 with
  | some (ds, rest) => some (pre ++ e ++ sgn ++ ds, rest)
  | none => none

/-- Optional fraction part: a dot must be followed by digits. -/
def parseFrac (s : List Char) : Option (List Char × List Char) :=
  match s with
  | '.' :: rest =>
    match parseDigits rest with
    | some (ds, r2) => some ('.' :: ds, r2)
    | none => none
  | _ => some ([], s)

/-- Fraction and exponent of a number lexeme. -/
def parseNumTail (intPart s : List Char) : Option (List Char × List Char) :=
  match parseFrac s with
  | none => none
  | some (frac, s2) =>
    match s2 with
    | 'e' :: rest => parseExp (intPart ++ frac) ['e'] rest
    | 'E' :: rest => parseExp (intPart ++ frac) ['E'] rest
    | _ => some (intPart ++ frac, s2)

/-- A JSON number lexeme: sign, integer part without leading zeros, optional
fraction, optional exponent. -/
def parseNum (s : List Char) : Option (List Char × List Char) :=
  let (sgn, s1) := match s with
    | '-' :: rest => ((['-'] : List Char), rest)
    | _ => (([] : List Char), s)
  match s1 with
  | '0' :: rest => parseNumTail (sgn ++ ['0']) rest
  | c :: _ =>
    if c.isDigit then
      match parseDigits s1 with
      | some (ds, rest) => parseNumTail (sgn ++ ds) rest
      | none => none
    else none
  | [] => none

mutual

/-- A JSON value: skip whitespace and dispatch on the first character
(objects, arrays, strings, literals including the Python-accepted
NaN/Infinity constants, then numbers). -/
def parseVal : Nat → List Char → Option (Json × List Char)
  | 0, _ => none
  | fuel + 1, s =>
    match s.dropWhile jsonWs with
    | '{' :: rest =>
      match parseObjRest fuel rest with
      | some (fs, rem) => some (Json.obj fs, rem)
      | none => none
    | '[' :: rest =>
      match parseArrRest fuel rest with
      | some (items, rem) => some (Json.arr items, rem)
      | none => none
    | '"' :: rest =>
      match parseStrBody (rest.length + 1) rest with
      | some (cs, rem) => some (Json.str cs, rem)
      | none => none
    | 't' :: 'r' :: 'u' :: 'e' :: rest => some (Json.bool true, rest)
    | 'f' :: 'a' :: 'l' :: 's' :: 'e' :: rest => some (Json.bool false, rest)
    | 'n' :: 'u' :: 'l' :: 'l' :: rest => some (Json.null, rest)
    | 'N' :: 'a' :: 'N' :: rest => some (Json.num "NaN".data, rest)
    | 'I' :: 'n' :: 'f' :: 'i' :: 'n' :: 'i' :: 't' :: 'y' :: rest =>
      some (Json.num "Infinity".data, rest)
    | '-' :: 'I' :: 'n' :: 'f' :: 'i' :: 'n' :: 'i' :: 't' :: 'y' :: rest =>
      some (Json.num "-Infinity".data, rest)
    | t => match parseNum t with
      | some (lex, rem) => some (Json.num lex, rem)
      | none => none

/-- Object tail after the opening brace: empty object or member list. -/
def parseObjRest : Nat → List Char → Option (List (List Char × Json) × List Char)
  | 0, _ => none
  | fuel + 1, s =>
    match s.dropWhile jsonWs with
    | '}' :: rest => some ([], rest)
    | _ => parseMembers fuel s

/-- One or more `"key": value` members separated by commas, then the
closing brace. -/
def parseMembers : Nat → List Char → Option (List (List Char × Json) × List Char)
  | 0, _ => none
  | fuel + 1, s =>
    match s.dropWhile jsonWs with
    | '"' :: rest =>
      match parseStrBody (rest.length + 1) rest with
      | some (key, rem) =>
        match rem.dropWhile jsonWs with
        | ':' :: rem2 =>
          match parseVal fuel rem2 with
          | some (v, rem3) =>
            match rem3.dropWhile jsonWs with
            | ',' :: rem4 =>
              match parseMembers fuel rem4 with
              | some (fs, rem5) => some ((key, v) :: fs, rem5)
              | none => none
            | '}' :: rem4 => some ([(key, v)], rem4)
            | _ => none
          | none => none
        | _ => none
      | none => none
    | _ => none

/-- Array tail after the opening bracket: empty array or item list. -/
def parseArrRest : Nat → List Char → Option (List Json × List Char)
  | 0, _ => none
  | fuel + 1, s =>
    match s.dropWhile jsonWs with
    | ']' :: rest => some ([], rest)
    | _ => parseItems fuel s

/-- One or more values separated by commas, then the closing bracket. -/
def parseItems : Nat → List Char → Option (List Json × List Char)
  | 0, _ => none
  | fuel + 1, s =>
    match parseVal fuel s with
    | some (v, rem) =>
      match rem.dropWhile jsonWs with
      | ',' :: rem2 =>
        match parseItems fuel rem2 with
        | some (items, rem3) => some (v :: items, rem3)
        | none => none
      | ']' :: rem2 => some ([v], rem2)
      | _ => none
    | none => none

end

/-- `json.loads`: parse one value, allow trailing whitespace, reject
anything further ("Extra data").  Failure is `none` (the
`json.JSONDecodeError` the caller catches). -/
def jsonLoads (s : List Char) : Option Json :=
  match parseVal (3 * s.length + 3) s with
  | some (v, rem) => if rem.dropWhile jsonWs = [] then some v else none
  | none => none

/-- Split at the first opening brace: `s = pre ++ '{' :: post`, `pre`
brace-free. -/
def splitFirstOpen : List Char → Option (List Char × List Char)
  | [] => none
  | c :: rest =>
    if c = '{' then some ([], rest)
    else
      match splitFirstOpen rest with
      | some (a, b) => some (c :: a, b)
      | none => none

/-- Split at the first closing brace: `s = pre ++ '}' :: post`, `pre`
free of closing braces. -/
def splitFirstClose : List Char → Option (List Char × List Char)
  | [] => none
  | c :: rest =>
    if c = '}' then some ([], rest)
    else
      match splitFirstClose rest with
      | some (a, b) => some (c :: a, b)
      | none => none

/-- `re.search` of the DOTALL pattern of an opening brace, any characters
and a closing brace: the leftmost match starts at the first opening brace,
and the greedy dot-star extends to the last closing brace after it. -/
def braceExtract (s : List Char) : Option (List Char) :=
  match splitFirstOpen s with
  | none => none
  | some (_, post) =>
    match splitFirstClose post.reverse with
    | none => none
    | some (_, midRev) => some ('{' :: midRev.reverse ++ ['}'])

/-- `response.replace("```json", "").replace("```", "").strip()`. -/
def stripFences (s : List Char) : List Char :=
  pyStrip (pyReplaceDel "```".data (pyReplaceDel "```json".data s))

/-- The JSON candidate handed to `json.loads`: the brace-extracted substring
when the regex matched, otherwise the whole cleaned text. -/
def candidateOf (s : List Char) : List Char :=
  match braceExtract (stripFences s) with
  | some c => c
  | none => stripFences s

/-- The fixed fallback stored on a JSON parse failure
(ai_insights.py lines 336-341). -/
def defaultInsight : Json :=
  Json.obj
    [("summary".data, Json.arr []),
     ("sentiment".data, Json.str "Unknown".data),
     ("funniest_quotes".data, Json.arr []),
     ("impactful_quote".data,
        Json.obj [("text".data, Json.str []), ("author".data, Json.str [])])]

/-- The Response Validator: clean, extract, parse, default on failure. -/
def validate (s : List Char) : Json :=
  match jsonLoads (candidateOf s) with
  | some v => v
  | none => defaultInsight

/-- Whether a JSON value is an object (a mapping). -/
def isObj : Json → Bool
  | Json.obj _ => true
  | _ => false

/-- Field lookup in a JSON object. -/
def jGet (k : List Char) : Json → Option Json
  | Json.obj fs => List.lookup k fs
  | _ => none

theorem parseVal_open_brace_obj (fuel : Nat) (rest : List Char) (v : Json) (rem : List Char)
    (h : parseVal fuel ('{' :: rest) = some (v, rem)) : isObj v = true := by
  cases fuel with
  | zero => exact absurd h (by simp [parseVal])
  | succ f =>
    rw [show parseVal (f + 1) ('{' :: rest)
        = (match parseObjRest f rest with
           | some (fs, rem2) => some (Json.obj fs, rem2)
           | none => none) from rfl] at h
    rcases ho : parseObjRest f rest with _ | ⟨fs, rem2⟩ <;> rw [ho] at h
    · exact absurd h (by simp)
    · simp only [Option.some.injEq, Prod.mk.injEq] at h
      rw [← h.1]
      rfl

theorem braceExtract_shape (s c : List Char) (h : braceExtract s = some c) :
    ∃ mid, c = '{' :: mid ++ ['}'] := by
  unfold braceExtract at h
  split at h
  · exact absurd h (by simp)
  · split at h
    · exact absurd h (by simp)
    · exact ⟨_, (Option.some_inj.mp h).symm⟩

theorem splitFirstOpen_complete (a rest : List Char) (ha : '{' ∉ a) :
    splitFirstOpen (a ++ '{' :: rest) = some (a, rest) := by
  induction a with
  | nil => simp [splitFirstOpen]
  | cons c a ih =>
    have hc : ¬(c = '{') := fun he => ha (he ▸ List.mem_cons_self c a)
    have ih2 := ih (fun hm => ha (List.mem_cons_of_mem c hm))
    simp only [List.cons_append]
    unfold splitFirstOpen
    rw [if_neg hc, ih2]

theorem splitFirstClose_complete (a rest : List Char) (ha : '}' ∉ a) :
    splitFirstClose (a ++ '}' :: rest) = some (a, rest) := by
  induction a with
  | nil => simp [splitFirstClose]
  | cons c a ih =>
    have hc : ¬(c = '}') := fun he => ha (he ▸ List.mem_cons_self c a)
    have ih2 := ih (fun hm => ha (List.mem_cons_of_mem c hm))
    simp only [List.cons_append]
    unfold splitFirstClose
    rw [if_neg hc, ih2]

theorem braceExtract_complete (a mid d : List Char) (ha : '{' ∉ a) (hd : '}' ∉ d) :
    braceExtract (a ++ '{' :: mid ++ '}' :: d) = some ('{' :: mid ++ ['}']) := by
  have hrev : (mid ++ '}' :: d).reverse = d.reverse ++ '}' :: mid.reverse := by
    rw [show ('}' :: d : List Char) = ['}'] ++ d from rfl]
    simp
  have hd2 : '}' ∉ d.reverse := by simpa using hd
  have h1 : splitFirstOpen (a ++ '{' :: (mid ++ '}' :: d)) = some (a, mid ++ '}' :: d) :=
    splitFirstOpen_complete a (mid ++ '}' :: d) ha
  have h2 : splitFirstClose (mid ++ '}' :: d).reverse = some (d.reverse, mid.reverse) := by
    rw [hrev]
    exact splitFirstClose_complete d.reverse mid.reverse hd2
  unfold braceExtract
  simp only [List.cons_append, List.append_assoc] at h1 ⊢
  rw [h1]
  simp only [h2, List.reverse_reverse]

theorem jsonLoads_some_parseVal (c : List Char) (v : Json) (h : jsonLoads c = some v) :
    ∃ rem, parseVal (3 * c.length + 3) c = some (v, rem) := by
  unfold jsonLoads at h
  split at h
  · split at h
    · have hv := Option.some_inj.mp h
      subst hv
      exact ⟨_, by assumption⟩
    · exact absurd h (by simp)
  · exact absurd h (by simp)

theorem validate_obj_of_brace (s c : List Char)
    (hb : braceExtract (stripFences s) = some c) : isObj (validate s) = true := by
  have hcand : candidateOf s = c := by
    unfold candidateOf
    rw [hb]
  obtain ⟨mid, rfl⟩ := braceExtract_shape _ _ hb
  unfold validate
  rcases hl : jsonLoads (candidateOf s) with _ | v
  · rfl
  · rw [hcand] at hl
    obtain ⟨rem, hpv⟩ := jsonLoads_some_parseVal _ _ hl
    have : ('{' :: mid ++ ['}'] : List Char) = '{' :: (mid ++ ['}']) := rfl
    rw [this] at hpv
    exact parseVal_open_brace_obj _ _ _ _ hpv

/-- C5 (counterexample to the claim as stated): on the input `3` — no braces
anywhere, yet valid JSON — the validator returns the parsed number, which is
not a mapping, so validation does not return a well-formed InsightResult
mapping for every input string. -/
theorem c5_validator_counterexample :
    ¬ (∀ s : List Char, isObj (validate s) = true) := by
  intro h
  have h3 := h "3".data
  have hv : validate "3".data = Json.num "3".data := rfl
  rw [hv] at h3
  exact absurd h3 (by decide)

/-- C5 (amended): validation is total and never raises — for every input it
returns either the JSON value parsed from the candidate substring or the
fixed default record; whenever the brace extraction finds a candidate the
result is a mapping (and the default itself is a mapping); only a braceless
input that parses as non-object JSON yields a non-mapping. -/
theorem c5_validator_total_amended :
    (∀ s : List Char, validate s = defaultInsight ∨
       ∃ v, jsonLoads (candidateOf s) = some v ∧ validate s = v) ∧
    (∀ s c, braceExtract (stripFences s) = some c → isObj (validate s) = true) ∧
    isObj defaultInsight = true := by
  refine ⟨?_, ?_, rfl⟩
  · intro s
    unfold validate
    rcases hl : jsonLoads (candidateOf s) with _ | v
    · exact Or.inl rfl
    · exact Or.inr ⟨v, rfl, rfl⟩
  · intro s c hb
    exact validate_obj_of_brace s c hb

/-- Witness for C5 (amended): a response with prose around a JSON object
validates to a mapping. -/
theorem c5_validator_total_amended_witness :
    isObj (validate "noise {} tail".data) = true :=
  c5_validator_total_amended.2.1 "noise {} tail".data "{}".data (by decide)

/-- C6: the validator strips the markdown fence markers, extracts the
substring from the first opening brace to the last closing brace as the JSON
candidate, and on parse failure of that candidate substitutes exactly the
fixed default record (empty summary list, sentiment `Unknown`, empty and
placeholder quote fields) — never any other fallback value. -/
theorem c6_validator_extraction_default :
    (∀ s a mid d, stripFences s = a ++ '{' :: mid ++ '}' :: d → '{' ∉ a → '}' ∉ d →
       candidateOf s = '{' :: mid ++ ['}'] ∧
       (jsonLoads ('{' :: mid ++ ['}']) = none → validate s = defaultInsight)) ∧
    (∀ s, jsonLoads (candidateOf s) = none → validate s = defaultInsight) ∧
    (∀ s v, jsonLoads (candidateOf s) = some v → validate s = v) ∧
    jGet "summary".data defaultInsight = some (Json.arr []) ∧
    jGet "sentiment".data defaultInsight = some (Json.str "Unknown".data) ∧
    jGet "funniest_quotes".data defaultInsight = some (Json.arr []) ∧
    jGet "impactful_quote".data defaultInsight
      = some (Json.obj [("text".data, Json.str []), ("author".data, Json.str [])]) := by
  have hnone : ∀ s, jsonLoads (candidateOf s) = none → validate s = defaultInsight := by
    intro s hl
    unfold validate
    rw [hl]
  have hsome : ∀ s v, jsonLoads (candidateOf s) = some v → validate s = v := by
    intro s v hl
    unfold validate
    rw [hl]
  refine ⟨?_, hnone, hsome, rfl, rfl, rfl, rfl⟩
  intro s a mid d hsplit ha hd
  have hcand : candidateOf s = '{' :: mid ++ ['}'] := by
    unfold candidateOf
    rw [hsplit, braceExtract_complete a mid d ha hd]
  refine ⟨hcand, ?_⟩
  intro hl
  exact hnone s (by rw [hcand]; exact hl)

/-- Witness for C6: prose around a braced candidate; the candidate is exactly
the first-to-last brace substring. -/
theorem c6_validator_extraction_default_witness :
    candidateOf "x {1} y".data = "{1}".data := by
  have h := (c6_validator_extraction_default.1 "x {1} y".data
      "x ".data "1".data " y".data (by decide) (by decide) (by decide)).1
  rw [h]
  rfl

/-! ## The summarization client (`summarize_text`, ai_insights.py lines 83-159)

The outcome of each `client.chat.completions.create` call is modelled as an
element of an explicit outcome stream `calls : Nat -> CallResult`, indexed by
the number of calls made so far: either a response whose `message.content` is
a string or Python `None`, or a raised exception with its `str(e)` text.
The Python local variable `content` — read after the retry loop through
`locals().get('content', '')` — is threaded explicitly as
unbound / bound-to-None / bound-to-a-string.  A `TypeError` escaping the
function is an `Except.error` result. -/

inductive CallResult where
  | success (content : Option (List Char))
  | failure (err : List Char)

def noKeyMsg : List Char := "AI Analysis Unavailable: No API Key found.".data

def dailyLimitMsg : List Char := "AI Analysis Unavailable: Daily limit reached.".data

def allFailedMsg : List Char := "Failed to get AI response from all available models.".data

def typeErrMsg : List Char :=
  "TypeError: argument of type NoneType is not iterable".data

def dailyLimitSig : List Char := "free-models-per-day".data

/-- Result of the inner retry loop (`for attempt in range(max_retries)`):
either an early `return` with a value, or a fall-through carrying the next
call index and the state of the `content` variable. -/
inductive InnerOut where
  | earlyRet (v : List Char) (idx : Nat)
  | fallthru (idx : Nat) (cv : Option (Option (List Char)))

/-- The retry loop over one model: `n` attempts remaining, `idx` the index of
the next call, `cv` the binding state of `content`.  A truthy (non-empty)
content returns `content.strip()`; a falsy one (empty string or None) binds
`content` and retries; a daily-limit error returns the Unavailable sentinel;
a 429 error sleeps and retries; any other error breaks to the next model. -/
def innerLoop (calls : Nat → CallResult) : Nat → Nat → Option (Option (List Char)) → InnerOut
  | 0, idx, cv => .fallthru idx cv
  | n + 1, idx, cv =>
    match calls idx with
    | .success c =>
      match c with
      | some s =>
        if s ≠ [] then .earlyRet (pyStrip s) (idx + 1)
        else innerLoop calls n (idx + 1) (some (some s))
      | none => innerLoop calls n (idx + 1) (some none)
    | .failure e =>
      if containsSub dailyLimitSig e then .earlyRet dailyLimitMsg (idx + 1)
      else if containsSub "429".data e then innerLoop calls n (idx + 1) cv
      else .fallthru (idx + 1) cv

/-- The outer loop over the model list, capped at `max_model_attempts = 5`
models; after each model's retries the code checks
`"Unavailable" in locals().get('content', '')`, which raises a `TypeError`
when `content` is bound to `None`.  Returns the outcome (a returned string,
or a raised exception) and the total number of calls made. -/
def outerLoop (calls : Nat → CallResult) :
    List (List Char) → Nat → Nat → Option (Option (List Char)) →
    Except (List Char) (List Char) × Nat
  | [], _, idx, _ => (Except.ok allFailedMsg, idx)
  | _ :: rest, attempted, idx, cv =>
    if 5 ≤ attempted then (Except.ok allFailedMsg, idx)
    else
      match innerLoop calls 2 idx cv with
      | .earlyRet v i => (Except.ok v, i)
      | .fallthru i cv2 =>
        match cv2 with
        | some none => (Except.error typeErrMsg, i)
        | some (some s) =>
          if containsSub "Unavailable".data s then (Except.ok allFailedMsg, i)
          else outerLoop calls rest (attempted + 1) i cv2
        | none => outerLoop calls rest (attempted + 1) i cv2

/-- `summarize_text`: short-circuit without any call when no credential is
available, otherwise run the model loop. -/
def summarize_text (hasKey : Bool) (modelsList : List (List Char))
    (calls : Nat → CallResult) : Except (List Char) (List Char) × Nat :=
  if hasKey then outerLoop calls modelsList 0 0 none
  else (Except.ok noKeyMsg, 0)

/-! ## The per-period loop (`get_quarterly_insights`, ai_insights.py lines 259-343)

Each period contributes a (label, client response) pair; the loop aborts
as soon as a response contains the substring `Unavailable`, and otherwise
records the validated response under the period's label, in iteration
order. -/

def unavailableSig : List Char := "Unavailable".data

/-- The insight-accumulating loop over the sorted periods. -/
def insightsLoop : List (List Char × List Char) → List (List Char × Json)
  | [] => []
  | (label, resp) :: rest =>
    if containsSub unavailableSig resp then []
    else (label, validate resp) :: insightsLoop rest

theorem innerLoop_benign_failure (calls : Nat → CallResult) (n idx : Nat)
    (cv : Option (Option (List Char))) (e : List Char)
    (hc : calls idx = CallResult.failure e)
    (hd : containsSub dailyLimitSig e = false)
    (h429 : containsSub "429".data e = false) :
    innerLoop calls (n + 1) idx cv = InnerOut.fallthru (idx + 1) cv := by
  unfold innerLoop
  rw [hc]
  simp only [hd, h429]
  rfl

theorem outerLoop_all_benign (calls : Nat → CallResult)
    (hcalls : ∀ k, ∃ e, calls k = CallResult.failure e ∧
      containsSub dailyLimitSig e = false ∧ containsSub "429".data e = false) :
    ∀ (models : List (List Char)) (attempted idx : Nat),
      (outerLoop calls models attempted idx none).1 = Except.ok allFailedMsg := by
  intro models
  induction models with
  | nil => intro attempted idx; rfl
  | cons m rest ih =>
    intro attempted idx
    unfold outerLoop
    by_cases ha : 5 ≤ attempted
    · rw [if_pos ha]
    · rw [if_neg ha]
      obtain ⟨e, hc, hd, h429⟩ := hcalls idx
      rw [show (2 : Nat) = 1 + 1 from rfl, innerLoop_benign_failure calls 1 idx none e hc hd h429]
      exact ih (attempted + 1) (idx + 1)

/-- C7: on a detected hard quota-exhaustion (daily-limit) error on any
attempt, the summarization client aborts immediately — the retry loop
returns the Unavailable sentinel right away and the model loop returns it
with no further call consumed — and the failure value when all capped models
are exhausted without success is the distinct generic signal, not the
quota-exhaustion signal. -/
theorem c7_quota_abort_generic_failure :
    (∀ (calls : Nat → CallResult) (n idx : Nat) (cv : Option (Option (List Char)))
       (e : List Char),
       calls idx = CallResult.failure e → containsSub dailyLimitSig e = true →
       innerLoop calls (n + 1) idx cv = InnerOut.earlyRet dailyLimitMsg (idx + 1)) ∧
    (∀ (calls : Nat → CallResult) (m : List Char) (rest : List (List Char))
       (attempted idx : Nat) (cv : Option (Option (List Char))) (e : List Char),
       attempted < 5 → calls idx = CallResult.failure e →
       containsSub dailyLimitSig e = true →
       outerLoop calls (m :: rest) attempted idx cv = (Except.ok dailyLimitMsg, idx + 1)) ∧
    (∀ (calls : Nat → CallResult) (models : List (List Char)),
       (∀ k, ∃ e, calls k = CallResult.failure e ∧ containsSub dailyLimitSig e = false ∧
          containsSub "429".data e = false) →
       (summarize_text true models calls).1 = Except.ok allFailedMsg) ∧
    allFailedMsg ≠ dailyLimitMsg := by
  have hinner : ∀ (calls : Nat → CallResult) (n idx : Nat)
      (cv : Option (Option (List Char))) (e : List Char),
      calls idx = CallResult.failure e → containsSub dailyLimitSig e = true →
      innerLoop calls (n + 1) idx cv = InnerOut.earlyRet dailyLimitMsg (idx + 1) := by
    intro calls n idx cv e hc hd
    unfold innerLoop
    rw [hc]
    simp only [hd]
    rfl
  refine ⟨hinner, ?_, ?_, by decide⟩
  · intro calls m rest attempted idx cv e hatt hc hd
    unfold outerLoop
    rw [if_neg (by omega)]
    rw [show (2 : Nat) = 1 + 1 from rfl, hinner calls 1 idx cv e hc hd]
  · intro calls models hcalls
    unfold summarize_text
    rw [if_pos rfl]
    exact outerLoop_all_benign calls hcalls models 0 0

/-- Witness for C7: a daily-limit error on the very first attempt aborts with
the Unavailable sentinel after exactly one call, and an all-benign-failure
run returns the generic signal. -/
theorem c7_quota_abort_generic_failure_witness :
    outerLoop (fun _ => CallResult.failure "quota free-models-per-day exceeded".data)
        ["m1".data, "m2".data] 0 0 none
      = (Except.ok dailyLimitMsg, 1) ∧
    (summarize_text true ["m1".data, "m2".data] (fun _ => CallResult.failure "boom".data)).1
      = Except.ok allFailedMsg := by
  constructor
  · exact c7_quota_abort_generic_failure.2.1
      (fun _ => CallResult.failure "quota free-models-per-day exceeded".data)
      "m1".data ["m2".data] 0 0 none "quota free-models-per-day exceeded".data
      (by omega) rfl (by decide)
  · exact c7_quota_abort_generic_failure.2.2.1
      (fun _ => CallResult.failure "boom".data) ["m1".data, "m2".data]
      (fun k => ⟨"boom".data, rfl, by decide, by decide⟩)

/-- C9 (the code contradicts the claim): a model call that succeeds but
returns missing content (`message.content` is None) on both retry attempts
makes `summarize_text` raise a `TypeError` from the
`"Unavailable" in locals().get('content', '')` check instead of returning a
sentinel — so the expected failure mode "missing response content" does
escape the client's boundary as an exception. -/
theorem c9_missing_content_raises :
    summarize_text true ["model".data] (fun _ => CallResult.success none)
      = (Except.error typeErrMsg, 2) ∧
    ¬ (∀ (hasKey : Bool) (models : List (List Char)) (calls : Nat → CallResult) (e : List Char),
         (summarize_text hasKey models calls).1 ≠ Except.error e) := by
  constructor
  · rfl
  · intro h
    exact h true ["model".data] (fun _ => CallResult.success none) typeErrMsg rfl

/-- C8: if the client's response for period `cur` carries the Unavailable
signal while every earlier period's response does not, the multi-period run
aborts there and the returned insight mapping holds exactly the validated
insights of the periods before `cur`, in order, with no entry for `cur` or
any later period. -/
theorem c8_abort_keeps_prior_periods (pre : List (List Char × List Char))
    (cur : List Char × List Char) (rest : List (List Char × List Char))
    (hpre : ∀ p ∈ pre, containsSub unavailableSig p.2 = false)
    (hcur : containsSub unavailableSig cur.2 = true) :
    insightsLoop (pre ++ cur :: rest) = pre.map (fun p => (p.1, validate p.2)) := by
  induction pre with
  | nil =>
    rcases cur with ⟨label, resp⟩
    simp only [List.nil_append, insightsLoop, List.map_nil]
    rw [if_pos hcur]
  | cons p pre ih =>
    rcases p with ⟨label, resp⟩
    have hp : containsSub unavailableSig resp = false :=
      hpre _ (List.mem_cons_self _ _)
    simp only [List.cons_append, insightsLoop, List.map_cons]
    rw [if_neg (by simp [hp])]
    exact congrArg (List.cons _) (ih (fun q hq => hpre q (List.mem_cons_of_mem _ hq)))

/-- Witness for C8: a successful period, then a daily-limit abort, then a
period that would have succeeded; only the first period's insight remains. -/
theorem c8_abort_keeps_prior_periods_witness :
    insightsLoop [("Q1".data, "{}".data),
                  ("Q2".data, "AI Analysis Unavailable: Daily limit reached.".data),
                  ("Q3".data, "{}".data)]
      = List.map (fun p => (p.1, validate p.2)) [("Q1".data, "{}".data)] :=
  c8_abort_keeps_prior_periods [("Q1".data, "{}".data)]
    ("Q2".data, "AI Analysis Unavailable: Daily limit reached.".data)
    [("Q3".data, "{}".data)] (by decide) (by decide)

/-- C10 (implicit): the per-period abort condition is a bare substring test —
any response containing `Unavailable` anywhere (the no-credential signal, the
daily-limit signal, or a genuine model answer that merely contains that word)
stops the run at that period exactly as for quota exhaustion, and that
period's response is never parsed or recorded. -/
theorem c10_abort_is_substring_test :
    (∀ (pre : List (List Char × List Char)) (cur : List Char × List Char)
       (rest : List (List Char × List Char)),
       containsSub unavailableSig cur.2 = true →
       insightsLoop (pre ++ cur :: rest) = insightsLoop pre) ∧
    containsSub unavailableSig noKeyMsg = true ∧
    containsSub unavailableSig dailyLimitMsg = true := by
  refine ⟨?_, by decide, by decide⟩
  intro pre cur rest hcur
  induction pre with
  | nil =>
    rcases cur with ⟨label, resp⟩
    simp only [List.nil_append, insightsLoop]
    rw [if_pos hcur]
  | cons p pre ih =>
    rcases p with ⟨label, resp⟩
    simp only [List.cons_append, insightsLoop]
    by_cases hp : containsSub unavailableSig resp = true
    · rw [if_pos hp, if_pos hp]
    · rw [if_neg hp, if_neg hp]
      exact congrArg (List.cons _) ih

/-- Witness for C10: a genuine JSON answer that merely contains the word
`Unavailable` aborts the run; the prior period's insight is kept, the
aborting period's valid JSON is never recorded. -/
theorem c10_abort_is_substring_test_witness :
    insightsLoop [("Q1".data, "{}".data),
                  ("Q2".data, "summary: the service was Unavailable in May".data),
                  ("Q3".data, "{}".data)]
      = insightsLoop [("Q1".data, "{}".data)] :=
  c10_abort_is_substring_test.1 [("Q1".data, "{}".data)]
    ("Q2".data, "summary: the service was Unavailable in May".data)
    [("Q3".data, "{}".data)] (by decide)
